import Mathlib

/-!
Shallow embedding of the Metropolis sampler (src/Metropolis.py).

Modelling choices:
* Python floats are modelled by `Fl`: a rational number, `-inf`, `+inf`, or `nan`,
  with IEEE-style subtraction (`Fl.sub`, where `(-inf) - (-inf) = nan`) and
  IEEE-style strict comparison (`Fl.lt`, where every comparison with `nan` is false).
  Finite float arithmetic is idealised as exact rational arithmetic.
* The caller-supplied log-target may raise: it is `ℚ → Except Unit Fl`.
* The random source is an explicit stream `rng : ℕ → ℚ × ℚ`; the first component of
  `rng i` is the standard-normal draw `z` of iteration `i` (the proposal is
  `currentState + stepSize * z`, matching `np.random.normal(loc, scale)`), and the
  second component is the uniform draw `u` consumed inside the accept test.
* `np.log` applied to the uniform draw is an opaque external function
  `flog : ℚ → Fl`, passed as a parameter.
* A raised Python exception is modelled by `Except.error m'`, where `m'` is the
  sampler's (mutable) state at the moment the exception propagates.
-/

/-- A Python/numpy double: a finite value (idealised as a rational), an infinity,
or `nan`. -/
inductive Fl where
  | real : ℚ → Fl
  | negInf : Fl
  | posInf : Fl
  | nan : Fl
deriving DecidableEq

/-- IEEE-style subtraction on `Fl`: any operation involving `nan` is `nan`, and the
indeterminate forms `(-inf) - (-inf)` and `(+inf) - (+inf)` are `nan`. -/
def Fl.sub : Fl → Fl → Fl
  | .nan, _ => .nan
  | _, .nan => .nan
  | .real a, .real b => .real (a - b)
  | .real _, .negInf => .posInf
  | .real _, .posInf => .negInf
  | .negInf, .real _ => .negInf
  | .negInf, .negInf => .nan
  | .negInf, .posInf => .negInf
  | .posInf, .real _ => .posInf
  | .posInf, .negInf => .posInf
  | .posInf, .posInf => .nan

/-- IEEE-style strict less-than on `Fl`: any comparison involving `nan` is false. -/
def Fl.lt : Fl → Fl → Bool
  | .nan, _ => false
  | _, .nan => false
  | .real a, .real b => decide (a < b)
  | .real _, .posInf => true
  | .real _, .negInf => false
  | .negInf, .negInf => false
  | .negInf, _ => true
  | .posInf, _ => false

/-- The state of a `Metropolis` object: the caller-supplied log-target (which may
raise, modelled by `Except`), the current state, the step size, the append-only
sample history, and the last recorded acceptance rate (`None` in Python is `none`). -/
structure Metro where
  logTarget : ℚ → Except Unit Fl
  currentState : ℚ
  stepSize : ℚ
  samples : List ℚ
  acceptanceRate : Option ℚ

/-- `Metropolis.__init__`: seeds the history with the initial state, sets
`stepSize = 1.0` and `acceptanceRate = None`. -/
def Metro.init (logTarget : ℚ → Except Unit Fl) (initialState : ℚ) : Metro :=
  { logTarget := logTarget
    currentState := initialState
    stepSize := 1
    samples := [initialState]
    acceptanceRate := none }

/-- `Metropolis.__accept(proposal)`: computes
`logRatio = logTarget(proposal) - logTarget(currentState)` (left to right, so an
exception in either evaluation propagates before any mutation), then accepts iff
`log(u) < logRatio` under IEEE comparison. On accept the current state becomes the
proposal and the proposal is appended; on reject the unchanged current state is
appended. `Except.error m'` carries the object's state when an exception escapes. -/
def Metro.accept (flog : ℚ → Fl) (m : Metro) (proposal u : ℚ) :
    Except Metro (Bool × Metro) :=
  match m.logTarget proposal with
  | .error _ => .error m
  | .ok lp =>
    match m.logTarget m.currentState with
    | .error _ => .error m
    | .ok lc =>
      let logRatio := Fl.sub lp lc
      if Fl.lt (flog u) logRatio then
        .ok (true, { m with currentState := proposal
                            samples := m.samples ++ [proposal] })
      else
        .ok (false, { m with samples := m.samples ++ [m.currentState] })

/-- Runs `n` accept/reject iterations (the loop bodies of `sample` and of one
adaptation block): each iteration draws `proposal = currentState + stepSize * z`
from `np.random.normal(loc = currentState, scale = stepSize)` and calls
`__accept`. Returns the number of accepted iterations together with the final
state, or the state at the moment an exception propagates. -/
def Metro.runIters (flog : ℚ → Fl) : ℕ → (ℕ → ℚ × ℚ) → Metro →
    Except Metro (ℕ × Metro)
  | 0, _, m => .ok (0, m)
  | n + 1, rng, m =>
    let z := (rng 0).1
    let u := (rng 0).2
    let proposal := m.currentState + m.stepSize * z
    match m.accept flog proposal u with
    | .error e => .error e
    | .ok (b, m₁) =>
      match Metro.runIters flog n (fun i => rng (i + 1)) m₁ with
      | .error e => .error e
      | .ok (k, m₂) => .ok ((if b then 1 else 0) + k, m₂)

/-- The per-block step-size update of `adapt`: halve the step size when the block's
acceptance rate is below 0.1, double it when above 0.6, otherwise keep it. -/
def Metro.stepAdjust (m : Metro) (rate : ℚ) : Metro :=
  if rate < 1 / 10 then { m with stepSize := m.stepSize / 2 }
  else if rate > 3 / 5 then { m with stepSize := m.stepSize * 2 }
  else m

/-- The loop of `Metropolis.adapt`, threading the Python local variable
`acceptanceRate` (initialised to `0` before the loop). Each block of length `L`
runs `L` accept/reject iterations, then computes `accepts / blockLength` — which
raises `ZeroDivisionError` when `L = 0` (modelled by `.error` carrying the state at
the raise) — and rescales the step size. After the last block the local rate is
stored into the object's `acceptanceRate` field. -/
def Metro.adaptGo (flog : ℚ → Fl) : List ℕ → (ℕ → ℚ × ℚ) → Metro → ℚ →
    Except Metro Metro
  | [], _, m, rate => .ok { m with acceptanceRate := some rate }
  | L :: rest, rng, m, _ =>
    match Metro.runIters flog L rng m with
    | .error e => .error e
    | .ok (a, m₁) =>
      if L = 0 then .error m₁
      else
        Metro.adaptGo flog rest (fun i => rng (i + L)) (m₁.stepAdjust (a / L)) (a / L)

/-- `Metropolis.adapt(blockLengths)`. -/
def Metro.adapt (flog : ℚ → Fl) (blocks : List ℕ) (rng : ℕ → ℚ × ℚ) (m : Metro) :
    Except Metro Metro :=
  Metro.adaptGo flog blocks rng m 0

/-- `Metropolis.sample(nSamples)`: `for i in range(nSamples)` runs
`max nSamples 0` iterations (an `int` argument is accepted by `range`, and a
non-positive one yields an empty loop), then returns `self`. -/
def Metro.sample (flog : ℚ → Fl) (n : ℤ) (rng : ℕ → ℚ × ℚ) (m : Metro) :
    Except Metro Metro :=
  match Metro.runIters flog n.toNat rng m with
  | .error e => .error e
  | .ok (_, m₁) => .ok m₁

/-- Modelled from the spec (§4.2 AdaptationController), for comparison with the
code's `adapt`: process the blocks strictly in order; for each block of length `L`
run `L` accept/reject iterations, compute `acceptanceRate = accepted / L`, halve
the step size if the rate is below 0.1, double it if above 0.6, otherwise keep it;
return the last block's rate together with the final state. A zero-length block is
rejected (division by zero). -/
def Metro.adaptSpecGo (flog : ℚ → Fl) : List ℕ → (ℕ → ℚ × ℚ) → Metro →
    Except Metro (ℚ × Metro)
  | [], _, m => .ok (0, m)
  | L :: rest, rng, m =>
    match Metro.runIters flog L rng m with
    | .error e => .error e
    | .ok (a, m₁) =>
      if L = 0 then .error m₁
      else
        let rate : ℚ := a / L
        let m₂ := m₁.stepAdjust rate
        match rest with
        | [] => .ok (rate, m₂)
        | _ :: _ => Metro.adaptSpecGo flog rest (fun i => rng (i + L)) m₂

/-- Modelled from the spec (§4.2): after all blocks complete, record only the last
block's acceptance rate as the sampler's reported `acceptanceRate`, and return the
sampler itself. -/
def Metro.adaptSpec (flog : ℚ → Fl) (blocks : List ℕ) (rng : ℕ → ℚ × ℚ)
    (m : Metro) : Except Metro Metro :=
  match Metro.adaptSpecGo flog blocks rng m with
  | .error e => .error e
  | .ok (rate, m₁) => .ok { m₁ with acceptanceRate := some rate }

/-! Concrete fixtures used by witness theorems. -/

/-- A total log-target: the identity log-density `x ↦ x`. -/
def logTid : ℚ → Except Unit Fl := fun x => .ok (.real x)

/-- A log-target that is `-inf` everywhere. -/
def logTneg : ℚ → Except Unit Fl := fun _ => .ok Fl.negInf

/-- A log-target that raises on every input. -/
def logTerr : ℚ → Except Unit Fl := fun _ => .error ()

/-- A stand-in for `np.log` on `(0,1)`: the constant `-1`. -/
def flog0 : ℚ → Fl := fun _ => .real (-1)

/-- A random stream: every iteration draws `z = 1` and `u = 1/2`. -/
def rng0 : ℕ → ℚ × ℚ := fun _ => (1, 1 / 2)

/-- A freshly constructed sampler over `logTid` with initial state `0`. -/
def m1 : Metro := Metro.init logTid 0

/-- A sampler whose log-target is `-inf` everywhere. -/
def mNeg : Metro := Metro.init logTneg 0

/-- A sampler whose log-target raises on every input. -/
def mErr : Metro := Metro.init logTerr 0

/-- The state of `m1` after `sample(2)` under `flog0`/`rng0`. -/
def m1s : Metro :=
  { logTarget := logTid, currentState := 2, stepSize := 1
    samples := [0, 1, 2], acceptanceRate := none }

/-- The state of `m1` after `adapt([1])` under `flog0`/`rng0`. -/
def m1a : Metro :=
  { logTarget := logTid, currentState := 1, stepSize := 2
    samples := [0, 1], acceptanceRate := some 1 }

/-- The state carried by the exception raised by `adapt([1, 0])` on `m1`. -/
def mZ : Metro :=
  { logTarget := logTid, currentState := 1, stepSize := 2
    samples := [0, 1], acceptanceRate := none }

/-! Helper lemmas. -/

theorem Fl.lt_nan (x : Fl) : Fl.lt x Fl.nan = false := by cases x <;> rfl

theorem Metro.accept_ok_cases (flog : ℚ → Fl) (m : Metro) (proposal u : ℚ)
    (lp lc : Fl) (h₁ : m.logTarget proposal = .ok lp)
    (h₂ : m.logTarget m.currentState = .ok lc) :
    m.accept flog proposal u =
      if Fl.lt (flog u) (Fl.sub lp lc) then
        .ok (true, { m with currentState := proposal
                            samples := m.samples ++ [proposal] })
      else
        .ok (false, { m with samples := m.samples ++ [m.currentState] }) := by
  unfold Metro.accept
  rw [h₁, h₂]

theorem Metro.accept_error_left (flog : ℚ → Fl) (m : Metro) (proposal u : ℚ)
    (h : m.logTarget proposal = .error ()) :
    m.accept flog proposal u = .error m := by
  unfold Metro.accept
  rw [h]

theorem Metro.accept_error_right (flog : ℚ → Fl) (m : Metro) (proposal u : ℚ)
    (lp : Fl) (h₁ : m.logTarget proposal = .ok lp)
    (h₂ : m.logTarget m.currentState = .error ()) :
    m.accept flog proposal u = .error m := by
  unfold Metro.accept
  rw [h₁, h₂]

/-- C1: in the private accept/reject step, given the drawn proposal and the uniform
draw `u`, the proposal is accepted — the current state is set to the proposal, the
proposal is appended to the history, and `True` is returned — if and only if
`log(u) < logTarget(proposal) - logTarget(currentState)`. -/
theorem accept_true_iff (flog : ℚ → Fl) (m : Metro) (proposal u : ℚ) (lp lc : Fl)
    (h₁ : m.logTarget proposal = .ok lp)
    (h₂ : m.logTarget m.currentState = .ok lc) :
    m.accept flog proposal u
        = .ok (true, { m with currentState := proposal
                              samples := m.samples ++ [proposal] })
      ↔ Fl.lt (flog u) (Fl.sub lp lc) = true := by
  rw [Metro.accept_ok_cases flog m proposal u lp lc h₁ h₂]
  cases hlt : Fl.lt (flog u) (Fl.sub lp lc) <;> simp [hlt]

/-- Witness for C1 at concrete inputs: on `m1` the proposal `1` with `u = 1/2` is
in the acceptance regime. -/
theorem accept_true_iff_w :
    Metro.accept flog0 m1 1 (1 / 2)
        = .ok (true, { m1 with currentState := 1
                               samples := m1.samples ++ [1] })
      ↔ Fl.lt (flog0 (1 / 2)) (Fl.sub (.real 1) (.real 0)) = true :=
  accept_true_iff flog0 m1 1 (1 / 2) (.real 1) (.real 0) rfl rfl

/-- C2: when the proposal is rejected, the current state is unchanged, the value
appended to the history is the pre-iteration current state, and exactly one value
is appended. -/
theorem reject_appends_current (flog : ℚ → Fl) (m : Metro) (proposal u : ℚ)
    (lp lc : Fl) (h₁ : m.logTarget proposal = .ok lp)
    (h₂ : m.logTarget m.currentState = .ok lc)
    (hlt : Fl.lt (flog u) (Fl.sub lp lc) = false) :
    m.accept flog proposal u
        = .ok (false, { m with samples := m.samples ++ [m.currentState] })
      ∧ (m.samples ++ [m.currentState]).length = m.samples.length + 1 := by
  rw [Metro.accept_ok_cases flog m proposal u lp lc h₁ h₂]
  simp [hlt]

/-- Witness for C2 at concrete inputs: on `m1` the proposal `-3` with `u = 1/2` is
rejected and the unchanged current state is appended. -/
theorem reject_appends_current_w :
    Metro.accept flog0 m1 (-3) (1 / 2)
        = .ok (false, { m1 with samples := m1.samples ++ [m1.currentState] })
      ∧ (m1.samples ++ [m1.currentState]).length = m1.samples.length + 1 :=
  reject_appends_current flog0 m1 (-3) (1 / 2) (.real (-3)) (.real 0) rfl rfl
    (by norm_num [flog0, Fl.sub, Fl.lt])

/-- C7: when the log-target is `-inf` at both the proposal and the current state,
the iteration deterministically rejects (unchanged current state appended, `False`
returned) without surfacing an error, for every value of the uniform draw. -/
theorem both_neginf_rejects (flog : ℚ → Fl) (m : Metro) (proposal u : ℚ)
    (h₁ : m.logTarget proposal = .ok Fl.negInf)
    (h₂ : m.logTarget m.currentState = .ok Fl.negInf) :
    m.accept flog proposal u
      = .ok (false, { m with samples := m.samples ++ [m.currentState] }) := by
  rw [Metro.accept_ok_cases flog m proposal u Fl.negInf Fl.negInf h₁ h₂]
  simp [Fl.sub, Fl.lt_nan]

/-- Witness for C7 at concrete inputs: on `mNeg` (log-target constantly `-inf`)
every proposal is rejected. -/
theorem both_neginf_rejects_w :
    Metro.accept flog0 mNeg 1 (1 / 2)
      = .ok (false, { mNeg with samples := mNeg.samples ++ [mNeg.currentState] }) :=
  both_neginf_rejects flog0 mNeg 1 (1 / 2) rfl rfl

/-- C8: an error raised by the log-target during an accept/reject iteration
propagates (both to the caller of the private step and through `sample`), and the
iteration aborts atomically: the error carries the sampler state unchanged — the
current state is not modified and no value is appended to the history. -/
theorem logtarget_error_atomic (flog : ℚ → Fl) (m : Metro) (proposal u : ℚ)
    (n : ℤ) (rng : ℕ → ℚ × ℚ)
    (hd : m.logTarget proposal = .error ()
        ∨ ∃ lp, m.logTarget proposal = .ok lp
            ∧ m.logTarget m.currentState = .error ())
    (hn : 0 < n)
    (hfirst : m.logTarget (m.currentState + m.stepSize * (rng 0).1) = .error ()) :
    m.accept flog proposal u = .error m
      ∧ Metro.sample flog n rng m = .error m := by
  constructor
  · rcases hd with h | ⟨lp, h₁, h₂⟩
    · exact Metro.accept_error_left flog m proposal u h
    · exact Metro.accept_error_right flog m proposal u lp h₁ h₂
  · obtain ⟨k, hk⟩ : ∃ k, n.toNat = k + 1 := ⟨n.toNat - 1, by omega⟩
    unfold Metro.sample
    rw [hk]
    unfold Metro.runIters
    simp only [Metro.accept_error_left flog m (m.currentState + m.stepSize * (rng 0).1)
      (rng 0).2 hfirst]

/-- Witness for C8 at concrete inputs: on `mErr` (log-target raising everywhere)
the step and `sample(1)` both propagate the error with the state unchanged. -/
theorem logtarget_error_atomic_w :
    Metro.accept flog0 mErr 1 (1 / 2) = .error mErr
      ∧ Metro.sample flog0 1 rng0 mErr = .error mErr :=
  logtarget_error_atomic flog0 mErr 1 (1 / 2) 1 rng0 (Or.inl rfl) (by norm_num) rfl

/-- C10: for every integer `n ≤ 0`, `sample(n)` never raises and is a complete
no-op: it returns the sampler with every field unchanged. -/
theorem sample_nonpos_noop (flog : ℚ → Fl) (n : ℤ) (rng : ℕ → ℚ × ℚ) (m : Metro)
    (h : n ≤ 0) : Metro.sample flog n rng m = .ok m := by
  have hz : n.toNat = 0 := by omega
  unfold Metro.sample
  rw [hz]
  rfl

/-- Witness for C10 at a concrete input: `sample(-1)` on `m1` is a no-op. -/
theorem sample_nonpos_noop_w : Metro.sample flog0 (-1) rng0 m1 = .ok m1 :=
  sample_nonpos_noop flog0 (-1) rng0 m1 (by norm_num)

theorem Metro.accept_ok_shape (flog : ℚ → Fl) {m : Metro} {proposal u : ℚ}
    {b : Bool} {m₁ : Metro} (h : m.accept flog proposal u = .ok (b, m₁)) :
    m₁.samples.length = m.samples.length + 1 ∧ m₁.stepSize = m.stepSize
      ∧ m₁.logTarget = m.logTarget ∧ m₁.acceptanceRate = m.acceptanceRate := by
  unfold Metro.accept at h
  split at h
  · exact absurd h (by simp)
  · split at h
    · exact absurd h (by simp)
    · dsimp only at h
      split at h
      · simp only [Except.ok.injEq, Prod.mk.injEq] at h
        obtain ⟨-, hm⟩ := h
        subst hm
        simp
      · simp only [Except.ok.injEq, Prod.mk.injEq] at h
        obtain ⟨-, hm⟩ := h
        subst hm
        simp

theorem Metro.runIters_ok_shape (flog : ℚ → Fl) :
    ∀ (n : ℕ) (rng : ℕ → ℚ × ℚ) (m : Metro) (k : ℕ) (m' : Metro),
      Metro.runIters flog n rng m = .ok (k, m') →
      m'.samples.length = m.samples.length + n ∧ m'.stepSize = m.stepSize
        ∧ m'.logTarget = m.logTarget ∧ m'.acceptanceRate = m.acceptanceRate := by
  intro n
  induction n with
  | zero =>
    intro rng m k m' h
    unfold Metro.runIters at h
    simp only [Except.ok.injEq, Prod.mk.injEq] at h
    obtain ⟨-, hm⟩ := h
    subst hm
    simp
  | succ n ih =>
    intro rng m k m' h
    unfold Metro.runIters at h
    dsimp only at h
    split at h
    · exact absurd h (by simp)
    · rename_i b m₁ hacc
      split at h
      · exact absurd h (by simp)
      · rename_i k₁ m₂ hrec
        simp only [Except.ok.injEq, Prod.mk.injEq] at h
        obtain ⟨-, hm⟩ := h
        subst hm
        obtain ⟨ha1, ha2, ha3, ha4⟩ := Metro.accept_ok_shape flog hacc
        obtain ⟨hb1, hb2, hb3, hb4⟩ := ih _ _ _ _ hrec
        refine ⟨?_, ?_, ?_, ?_⟩
        · rw [hb1, ha1]; omega
        · rw [hb2, ha2]
        · rw [hb3, ha3]
        · rw [hb4, ha4]

theorem Metro.stepAdjust_shape (m : Metro) (r : ℚ) :
    (m.stepAdjust r).samples = m.samples ∧ (m.stepAdjust r).logTarget = m.logTarget
      ∧ (m.stepAdjust r).acceptanceRate = m.acceptanceRate
      ∧ (0 < m.stepSize → 0 < (m.stepAdjust r).stepSize) := by
  unfold Metro.stepAdjust
  split
  · exact ⟨rfl, rfl, rfl, fun h => by simpa using half_pos h⟩
  · split
    · exact ⟨rfl, rfl, rfl, fun h => by simp; linarith⟩
    · exact ⟨rfl, rfl, rfl, fun h => h⟩

theorem Metro.adaptGo_ok_shape (flog : ℚ → Fl) :
    ∀ (blocks : List ℕ) (rng : ℕ → ℚ × ℚ) (m : Metro) (r : ℚ) (m'' : Metro),
      Metro.adaptGo flog blocks rng m r = .ok m'' →
      m''.samples.length = m.samples.length + blocks.sum
        ∧ (0 < m.stepSize → 0 < m''.stepSize)
        ∧ m''.logTarget = m.logTarget := by
  intro blocks
  induction blocks with
  | nil =>
    intro rng m r m'' h
    unfold Metro.adaptGo at h
    simp only [Except.ok.injEq] at h
    subst h
    simp
  | cons L rest ih =>
    intro rng m r m'' h
    unfold Metro.adaptGo at h
    split at h
    · exact absurd h (by simp)
    · rename_i a m₁ hrun
      split at h
      · exact absurd h (by simp)
      · obtain ⟨hr1, hr2, hr3, -⟩ := Metro.runIters_ok_shape flog L rng m a m₁ hrun
        obtain ⟨hs1, hs2, -, hs4⟩ := Metro.stepAdjust_shape m₁ ((a : ℚ) / L)
        obtain ⟨hg1, hg2, hg3⟩ := ih _ _ _ _ h
        refine ⟨?_, ?_, ?_⟩
        · rw [hg1, hs1, hr1]
          simp [List.sum_cons]
          omega
        · intro hp
          refine hg2 ?_
          refine hs4 ?_
          rw [hr2]
          exact hp
        · rw [hg3, hs2, hr3]

/-- C3: construction seeds the history with exactly one value; a successful
`sample(n)` grows the history by exactly `max n 0` values (exactly `n` for
`n ≥ 0`); a successful `adapt(blocks)` grows it by exactly the total number of
accept/reject iterations, namely the sum of the block lengths — so the history
length always equals 1 plus the total number of iterations performed. -/
theorem history_length (f : ℚ → Except Unit Fl) (s : ℚ) (flog : ℚ → Fl) (n : ℤ)
    (rng rng₂ : ℕ → ℚ × ℚ) (m m' m'' : Metro) (blocks : List ℕ)
    (hs : Metro.sample flog n rng m = .ok m')
    (ha : Metro.adapt flog blocks rng₂ m = .ok m'') :
    (Metro.init f s).samples.length = 1
      ∧ m'.samples.length = m.samples.length + n.toNat
      ∧ m''.samples.length = m.samples.length + blocks.sum := by
  refine ⟨rfl, ?_, ?_⟩
  · unfold Metro.sample at hs
    split at hs
    · exact absurd hs (by simp)
    · rename_i k m₁ hrun
      simp only [Except.ok.injEq] at hs
      subst hs
      exact (Metro.runIters_ok_shape flog n.toNat rng m k m₁ hrun).1
  · exact (Metro.adaptGo_ok_shape flog blocks rng₂ m 0 m'' ha).1

/-- Witness for C3 at concrete inputs: on `m1`, `sample(2)` grows the history from
1 to 3 entries and `adapt([1])` grows it from 1 to 2 entries. -/
theorem history_length_w :
    (Metro.init logTid 0).samples.length = 1
      ∧ m1s.samples.length = m1.samples.length + (2 : ℤ).toNat
      ∧ m1a.samples.length = m1.samples.length + ([1] : List ℕ).sum :=
  history_length logTid 0 flog0 2 rng0 rng0 m1 m1s m1a [1]
    (by norm_num [Metro.sample, Metro.runIters, Metro.accept, m1, m1s, Metro.init,
      logTid, flog0, rng0, Fl.sub, Fl.lt])
    (by norm_num [Metro.adapt, Metro.adaptGo, Metro.runIters, Metro.accept,
      Metro.stepAdjust, m1, m1a, Metro.init, logTid, flog0, rng0, Fl.sub, Fl.lt])

theorem Metro.adaptGo_eq_spec (flog : ℚ → Fl) :
    ∀ (blocks : List ℕ) (rng : ℕ → ℚ × ℚ) (m : Metro) (r : ℚ), blocks ≠ [] →
      Metro.adaptGo flog blocks rng m r =
        match Metro.adaptSpecGo flog blocks rng m with
        | .error e => .error e
        | .ok (rate, m₁) => .ok { m₁ with acceptanceRate := some rate } := by
  intro blocks
  induction blocks with
  | nil => intro rng m r h; exact absurd rfl h
  | cons L rest ih =>
    intro rng m r _
    unfold Metro.adaptGo Metro.adaptSpecGo
    cases hr : Metro.runIters flog L rng m with
    | error e => simp
    | ok p =>
      obtain ⟨a, m₁⟩ := p
      by_cases hL : L = 0
      · simp [hL]
      · simp only [if_neg hL]
        cases rest with
        | nil => simp [Metro.adaptGo]
        | cons L₂ rest₂ => exact ih _ _ _ (by simp)

/-- C4: for every nonempty sequence of positive block lengths, the code's `adapt`
coincides with the spec-side `adaptSpec`: blocks are processed strictly in order,
each block of length `L` runs `L` accept/reject iterations and computes
`acceptanceRate = accepted / L`, the step size is halved below 0.1 and doubled
above 0.6 and otherwise kept, only the last block's rate is recorded as the
sampler's `acceptanceRate`, and the sampler itself is returned. -/
theorem adapt_refines_spec (flog : ℚ → Fl) (blocks : List ℕ) (rng : ℕ → ℚ × ℚ)
    (m : Metro) (hne : blocks ≠ []) (hpos : ∀ L ∈ blocks, 0 < L) :
    Metro.adapt flog blocks rng m = Metro.adaptSpec flog blocks rng m := by
  unfold Metro.adapt Metro.adaptSpec
  exact Metro.adaptGo_eq_spec flog blocks rng m 0 hne

/-- Witness for C4 at concrete inputs: on `m1` with the single block `[1]` the
code's `adapt` and the spec's description agree. -/
theorem adapt_refines_spec_w :
    Metro.adapt flog0 [1] rng0 m1 = Metro.adaptSpec flog0 [1] rng0 m1 :=
  adapt_refines_spec flog0 [1] rng0 m1 (by simp) (by simp)

/-- C5 counterexample: `adapt([])` on a freshly constructed sampler does not
leave `acceptanceRate` unset — it returns normally with `acceptanceRate = 0`
(the Python local is initialised to `0` and stored unconditionally), which is
not distinguishable from a genuine 0% acceptance rate. -/
theorem adapt_nil_rate_cex :
    Metro.adapt flog0 [] rng0 m1 = .ok { m1 with acceptanceRate := some 0 }
      ∧ ({ m1 with acceptanceRate := some (0 : ℚ) }).acceptanceRate
          ≠ m1.acceptanceRate := by
  constructor
  · rfl
  · simp [m1, Metro.init]

/-- C5 amended: calling `adapt` with an empty block-length sequence leaves the
step size, the current state and the history unchanged, but sets the sampler's
`acceptanceRate` to `0` (not `None`), indistinguishable from a genuine 0% rate. -/
theorem adapt_nil_sets_rate_zero (flog : ℚ → Fl) (rng : ℕ → ℚ × ℚ) (m : Metro) :
    Metro.adapt flog [] rng m = .ok { m with acceptanceRate := some 0 } := rfl

theorem Metro.adaptGo_zero_mem_not_ok (flog : ℚ → Fl) :
    ∀ (blocks : List ℕ) (rng : ℕ → ℚ × ℚ) (m : Metro) (r : ℚ) (m' : Metro),
      0 ∈ blocks → Metro.adaptGo flog blocks rng m r ≠ .ok m' := by
  intro blocks
  induction blocks with
  | nil => intro rng m r m' h; exact absurd h (by simp)
  | cons L rest ih =>
    intro rng m r m' h0 hok
    unfold Metro.adaptGo at hok
    split at hok
    · exact absurd hok (by simp)
    · rename_i a m₁ hrun
      split at hok
      · exact absurd hok (by simp)
      · rename_i hL
        have : 0 ∈ rest := by
          rcases List.mem_cons.mp h0 with h | h
          · exact absurd h.symm hL
          · exact h
        exact ih _ _ _ _ this hok

/-- C6 counterexample: `adapt([1, 0])` on a freshly constructed sampler is not
reported with "no partial mutation": the zero-length block raises a division-by-
zero only after the first block has already run, so the failed call has grown the
history (from 1 to 2 entries) and changed the step size. -/
theorem adapt_zero_block_cex :
    Metro.adapt flog0 [1, 0] rng0 m1 = .error mZ
      ∧ mZ.samples.length = 2 ∧ m1.samples.length = 1
      ∧ mZ.stepSize ≠ m1.stepSize := by
  refine ⟨?_, rfl, rfl, ?_⟩
  · norm_num [Metro.adapt, Metro.adaptGo, Metro.runIters, Metro.accept,
      Metro.stepAdjust, m1, mZ, Metro.init, logTid, flog0, rng0, Fl.sub, Fl.lt]
  · norm_num [m1, mZ, Metro.init]

/-- C6 amended: a zero block length makes `adapt` raise a division-by-zero error
when that block's (empty) iteration loop finishes, so the call never returns
normally; the zero block itself contributes no history entries or mutation — in
particular when the zero block comes first the error carries the sampler state
exactly as it was before the call — but blocks preceding the zero have already
run and mutated the sampler. -/
theorem adapt_zero_block_raises (flog : ℚ → Fl) (rng : ℕ → ℚ × ℚ) (m m' : Metro)
    (rest blocks : List ℕ) (h0 : 0 ∈ blocks) :
    Metro.adapt flog (0 :: rest) rng m = .error m
      ∧ Metro.adapt flog blocks rng m ≠ .ok m' := by
  constructor
  · rfl
  · exact Metro.adaptGo_zero_mem_not_ok flog blocks rng m 0 m' h0

/-- Witness for C6's amended statement at concrete inputs: `adapt([0])` on `m1`
raises with the state unchanged, and `adapt([1, 0])` on `m1` does not return
normally. -/
theorem adapt_zero_block_raises_w :
    Metro.adapt flog0 (0 :: []) rng0 m1 = .error m1
      ∧ Metro.adapt flog0 [1, 0] rng0 m1 ≠ .ok mZ :=
  adapt_zero_block_raises flog0 rng0 m1 mZ [] [1, 0] (by simp)
